import Mathlib

/-!
Verification of the post/comment data-access layer of a MERN blog
application, shallowly embedded from `server/controllers/postcontroller.js`
and `server/routes/postroutes.js`.

Strings are modelled as Lean `String` (a wrapper around `List Char`), and
the JavaScript string operations used by the controllers (`split`, `trim`,
`substring`, `toLowerCase` comparison inside `$regex ... $options: i`) are
re-implemented on the character list so that everything evaluates inside
the kernel.  The database is a `List Post`; Mongo queries (`find` with a
filter, `sort({createdAt: -1})`, `skip`, `limit`) are evaluated as list
filtering, merge sort on the `createdAt` key, `drop` and `take`.
-/

/-- Character list of a string (JS strings are sequences of code units;
we model them as sequences of characters). -/
def chars (s : String) : List Char := s.data

/-- Rebuild a string from its characters. -/
def ofChars (l : List Char) : String := String.mk l

/-- JS `String.prototype.trim`: strip leading and trailing whitespace. -/
def trimChars (l : List Char) : List Char :=
  ((l.dropWhile Char.isWhitespace).reverse.dropWhile Char.isWhitespace).reverse

/-- JS `s.trim()` on our string model. -/
def jsTrim (s : String) : String := ofChars (trimChars (chars s))

/-- JS `s.split(',')` on the character list: splits at every comma,
keeping empty pieces (`"a,,b" ↦ ["a", "", "b"]`, `"" ↦ [""]`). -/
def splitCommaChars (l : List Char) : List (List Char) :=
  match l with
  | [] => [[]]
  | c :: cs =>
    let r := splitCommaChars cs
    if c == ',' then [] :: r
    else
      match r with
      | [] => [[c]]
      | h :: t => (c :: h) :: t

/-- JS `s.split(',')` on our string model. -/
def jsSplitComma (s : String) : List String :=
  (splitCommaChars (chars s)).map ofChars

/-- JS `s.substring(0, n)`: the first `n` characters of `s` (all of `s`
when it is shorter). -/
def jsSubstringTo (s : String) (n : Nat) : String := ofChars ((chars s).take n)

/-- Length of a string in characters. -/
def strLen (s : String) : Nat := (chars s).length

/-- Case-folded characters of a string, for case-insensitive matching. -/
def lowerChars (s : String) : List Char := (chars s).map Char.toLower

/-- JS truthiness of an optional string field of `req.body` / `req.query`:
`undefined` and the empty string are falsy. -/
def truthy (o : Option String) : Bool :=
  match o with
  | none => false
  | some s => !(chars s).isEmpty

/-- `validator.isMongoId` (used by the route's `body('category').isMongoId()`
check): exactly 24 hexadecimal characters. -/
def isMongoId (s : String) : Bool :=
  (chars s).length == 24 && (chars s).all (fun c => c.isDigit || ('a' ≤ c && c ≤ 'f') || ('A' ≤ c && c ≤ 'F'))

/-- `mongoose.Types.ObjectId.isValid` (used by `getPost` to dispatch between
id and slug lookup): a 24-character hex string, or any 12-character string
(which mongoose accepts as a 12-byte id). -/
def isValidObjectId (s : String) : Bool :=
  isMongoId s || (chars s).length == 12

/-- An embedded comment of a post (`comments` array of the Post schema). -/
structure Comment where
  user : String
  content : String
deriving DecidableEq, Repr

/-- A document of the `Post` collection, with the fields the controllers
read and write.  `createdAt` is the creation timestamp used by
`sort({createdAt: -1})`. -/
structure Post where
  id : String
  title : String
  slug : String
  content : String
  excerpt : String
  author : String
  category : String
  tags : List String
  featuredImage : Option String
  isPublished : Bool
  viewCount : Nat
  comments : List Comment
  createdAt : Nat
deriving DecidableEq, Repr

/-- The database: the `Post` collection. -/
abbrev DB := List Post

/-- `Post.findById`: first document whose `_id` equals `i`. -/
def findById (db : DB) (i : String) : Option Post :=
  db.find? (fun p => p.id == i)

/-- `Post.findOne({slug})`: first document whose `slug` equals `s`. -/
def findBySlug (db : DB) (s : String) : Option Post :=
  db.find? (fun p => p.slug == s)

/-- The acting authenticated user (`req.user`), as resolved by the auth
middleware: its id and its role. -/
structure Actor where
  id : String
  role : String
deriving DecidableEq, Repr

/-- The multipart body fields of `POST /posts` and `PUT /posts/:id`
(`req.body`); every field may be absent. -/
structure PostBody where
  title : Option String
  content : Option String
  category : Option String
  tags : Option String
  excerpt : Option String
  isPublished : Option String
deriving DecidableEq, Repr

/-- The route-level validation (`postValidation` in `postroutes.js`):
`title` and `content` non-empty, `category` a Mongo id.  `validationResult`
is empty exactly when this holds. -/
def postValidationOk (b : PostBody) : Bool :=
  (match b.title with | none => false | some t => !(chars t).isEmpty)
  && (match b.content with | none => false | some c => !(chars c).isEmpty)
  && (match b.category with | none => false | some c => isMongoId c)

/-- `tags ? tags.split(',').map(tag => tag.trim()) : []` — the tag string
is split on commas and each piece trimmed; an absent (or empty, hence
falsy) input yields `[]`.  Empty pieces are kept. -/
def processTags (tags : Option String) : List String :=
  match tags with
  | none => []
  | some t => if (chars t).isEmpty then [] else (jsSplitComma t).map jsTrim

/-- The tag normalization the spec describes: split on comma, trim each
piece, and drop the empty pieces.  Stated from the spec's words, for
comparison with `processTags` (which is what the code does). -/
def specTags (tags : Option String) : List String :=
  match tags with
  | none => []
  | some t => ((jsSplitComma t).map jsTrim).filter (fun s => !(chars s).isEmpty)

/-- The excerpt the controllers submit for storage:
`if (excerpt) ... else content.substring(0, 200) + '...'`.  When the
`excerpt` field is truthy it is used verbatim; otherwise the first 200
characters of `content` are taken and `"..."` is appended — also when
`content` has at most 200 characters. -/
def excerptOf (excerptField : Option String) (content : String) : String :=
  match excerptField with
  | some e => if (chars e).isEmpty then jsSubstringTo content 200 ++ "..." else e
  | none => jsSubstringTo content 200 ++ "..."

/-- The excerpt derivation the spec describes for an absent excerpt:
first 200 characters plus the marker only when content is longer than
200 characters, the content itself otherwise.  Stated from the spec's
words, for comparison with `excerptOf`. -/
def specDerivedExcerpt (content : String) : String :=
  if strLen content > 200 then jsSubstringTo content 200 ++ "..." else content

/-- One atom of the fragment of the `$regex` pattern dialect that our
embedding models: `.` matches any character, every other character
matches itself (case-insensitively, for `$options: 'i'`). -/
inductive RAtom where
  | dot : RAtom
  | lit : Char → RAtom
deriving DecidableEq, Repr

/-- Interpretation of a pattern string in the modelled fragment. -/
def parsePattern (s : String) : List RAtom :=
  (chars s).map (fun c => if c == '.' then RAtom.dot else RAtom.lit c)

/-- Does one atom match one character (case-insensitively)? -/
def atomMatch (a : RAtom) (c : Char) : Bool :=
  match a with
  | RAtom.dot => true
  | RAtom.lit d => d.toLower == c.toLower

/-- Does the atom list match a prefix of the character list? -/
def matchHere : List RAtom → List Char → Bool
  | [], _ => true
  | _ :: _, [] => false
  | a :: as, c :: cs => atomMatch a c && matchHere as cs

/-- Unanchored case-insensitive regex search, as `{$regex: pat, $options:
'i'}` performs on a string field: the pattern matches starting at some
position of the text. -/
def regexSearch (pat : String) (text : String) : Bool :=
  (List.range ((chars text).length + 1)).any
    (fun k => matchHere (parsePattern pat) ((chars text).drop k))

/-- Case-insensitive literal substring occurrence — the matching semantics
the spec describes for search terms.  Stated from the spec's words, for
comparison with `regexSearch` (which is what the code does). -/
def containsCI (term : String) (text : String) : Bool :=
  (List.range ((lowerChars text).length + 1)).any
    (fun k => lowerChars term == ((lowerChars text).drop k).take (lowerChars term).length)

/-- The `$or` search filter both `getPosts` and `searchPosts` build: the
term matches the title, the content, or one of the tags. -/
def postMatchesSearch (term : String) (p : Post) : Bool :=
  regexSearch term p.title || regexSearch term p.content
    || p.tags.any (fun t => regexSearch term t)

/-- The literal-substring counterpart of `postMatchesSearch`, from the
spec's words. -/
def postMatchesLiteral (term : String) (p : Post) : Bool :=
  containsCI term p.title || containsCI term p.content
    || p.tags.any (fun t => containsCI term t)

/-- `sort({createdAt: -1})`: `a` comes before `b` when `a` is at least as
new. -/
def newestFirst (a b : Post) : Prop := b.createdAt ≤ a.createdAt

instance : DecidableRel newestFirst := fun a b => Nat.decLe b.createdAt a.createdAt

instance : IsTotal Post newestFirst := ⟨fun a b => Nat.le_total b.createdAt a.createdAt⟩

instance : IsTrans Post newestFirst := ⟨fun _ _ _ h1 h2 => Nat.le_trans h2 h1⟩

/-- JS `parseInt(s)` (no radix argument) on an optional query parameter:
skip leading whitespace, read an optional sign, then a `0x`/`0X` hex
prefix or leading decimal digits; `none` is `NaN` (absent parameter,
or no digits). -/
def digitsValue (base : Nat) (isD : Char → Bool) (dVal : Char → Nat) (l : List Char) : Option Int :=
  match l.takeWhile isD with
  | [] => none
  | ds => some ((ds.foldl (fun acc c => acc * base + dVal c) 0 : Nat) : Int)

/-- Value of an unsigned numeral in JS `parseInt` (decimal, or hex after
a `0x` prefix). -/
def unsignedValue (l : List Char) : Option Int :=
  match l with
  | '0' :: 'x' :: rest => digitsValue 16 (fun c => c.isDigit || ('a' ≤ c && c ≤ 'f') || ('A' ≤ c && c ≤ 'F'))
      (fun c => if c.isDigit then c.toNat - '0'.toNat else if 'a' ≤ c && c ≤ 'f' then c.toNat - 'a'.toNat + 10 else c.toNat - 'A'.toNat + 10) rest
  | '0' :: 'X' :: rest => digitsValue 16 (fun c => c.isDigit || ('a' ≤ c && c ≤ 'f') || ('A' ≤ c && c ≤ 'F'))
      (fun c => if c.isDigit then c.toNat - '0'.toNat else if 'a' ≤ c && c ≤ 'f' then c.toNat - 'a'.toNat + 10 else c.toNat - 'A'.toNat + 10) rest
  | _ => digitsValue 10 Char.isDigit (fun c => c.toNat - '0'.toNat) l

/-- `parseInt(req.query.x)`: `none` models `NaN`. -/
def parseIntJS (o : Option String) : Option Int :=
  match o with
  | none => none
  | some s =>
    match (chars s).dropWhile Char.isWhitespace with
    | '-' :: rest => (unsignedValue rest).map (fun n => -n)
    | '+' :: rest => unsignedValue rest
    | rest => unsignedValue rest

/-- `parseInt(req.query.page) || 1`: `NaN` and `0` fall back to the
default. -/
def pageOf (page : Option String) : Int :=
  match parseIntJS page with
  | none => 1
  | some v => if v == 0 then 1 else v

/-- `parseInt(req.query.limit) || 10`. -/
def limitOf (limit : Option String) : Int :=
  match parseIntJS limit with
  | none => 10
  | some v => if v == 0 then 10 else v

/-- `Math.ceil(total / limit)` for a nonzero integer `limit`: the exact
mathematical ceiling of the quotient (`Math.ceil(x) = -Math.floor(-x)`). -/
def jsCeilDiv (total : Nat) (limit : Int) : Int :=
  -(Int.fdiv (-(total : Int)) limit)

/-- The query string of `GET /posts` (`req.query`); every parameter may be
absent. -/
structure ListQuery where
  page : Option String
  limit : Option String
  category : Option String
  search : Option String
deriving DecidableEq, Repr

/-- The filter document `getPosts` builds: `isPublished: true` always;
`category` exact match when the parameter is truthy; the `$or` regex
search when the `search` parameter is truthy. -/
def getPostsFilter (q : ListQuery) (p : Post) : Bool :=
  p.isPublished
  && (match q.category with
      | none => true
      | some c => if (chars c).isEmpty then true else p.category == c)
  && (match q.search with
      | none => true
      | some s => if (chars s).isEmpty then true else postMatchesSearch s p)

/-- The `pagination` object of the `getPosts` response. -/
structure Pagination where
  page : Int
  limit : Int
  total : Nat
  pages : Int
deriving DecidableEq, Repr

/-- The `getPosts` response: the page of posts and the pagination data. -/
structure ListResponse where
  data : List Post
  pagination : Pagination
deriving DecidableEq, Repr

/-- `GET /posts`: filter, sort newest-first, skip `(page-1)*limit`, take
`limit`, and report `total` and `pages = Math.ceil(total/limit)`.
(A negative skip or limit is rejected by the store; the list semantics
below clamps them to `0`, which no claim depends on.) -/
def getPosts (db : DB) (q : ListQuery) : ListResponse :=
  let page := pageOf q.page
  let limit := limitOf q.limit
  let skip := (page - 1) * limit
  let filtered := db.filter (getPostsFilter q)
  let total := filtered.length
  { data := ((filtered.insertionSort newestFirst).drop skip.toNat).take limit.toNat
    pagination := { page := page, limit := limit, total := total, pages := jsCeilDiv total limit } }

/-- Result of `GET /posts/search`. -/
inductive SearchResult where
  | validationError : SearchResult
  | ok : List Post → SearchResult
deriving DecidableEq, Repr

/-- `GET /posts/search?q=...`: 400 when `q` is falsy; otherwise the
published posts matching the `$or` regex filter, newest first, capped at
20. -/
def searchPosts (db : DB) (q : Option String) : SearchResult :=
  if !truthy q then SearchResult.validationError
  else
    let query := q.getD ""
    SearchResult.ok
      (((db.filter (fun p => p.isPublished && postMatchesSearch query p)).insertionSort
          newestFirst).take 20)

/-- Modelled from the spec: the Post schema method `incrementViewCount`
(the model file `server/models/post.js` is not among the given sources);
per §4.2 it "increments the post's view counter exactly once per call". -/
def incrementViewCount (p : Post) : Post :=
  { p with viewCount := p.viewCount + 1 }

/-- Replace (each copy of) the document with id `i` by `p'` — the effect
of a single-document update on the collection. -/
def updateById (db : DB) (i : String) (p' : Post) : DB :=
  db.map (fun q => if q.id == i then p' else q)

/-- Result of `GET /posts/:id`. -/
inductive GetPostResult where
  | notFound : GetPostResult
  | ok : Post → GetPostResult
deriving DecidableEq, Repr

/-- The lookup `getPost` performs: by id when the route parameter is a
valid ObjectId, by slug otherwise. -/
def getPostLookup (db : DB) (param : String) : Option Post :=
  if isValidObjectId param then findById db param else findBySlug db param

/-- `GET /posts/:id` (id or slug): 404 when the lookup fails; otherwise
the post's view counter is incremented and the post returned. -/
def getPost (db : DB) (param : String) : GetPostResult × DB :=
  match getPostLookup db param with
  | none => (GetPostResult.notFound, db)
  | some p =>
    let p' := incrementViewCount p
    (GetPostResult.ok p', updateById db p.id p')

/-- Result of `POST /posts`. -/
inductive CreateResult where
  | validationError : CreateResult
  | created : Post → CreateResult
deriving DecidableEq, Repr

/-- `POST /posts`: after validation, the stored document is assembled from
the body — tags via `processTags`, `isPublished` by strict comparison with
the string `'true'`, the excerpt via `excerptOf`, the image path from the
uploaded file.  The id, the auto-generated slug (a model hook not among
the given sources) and the creation timestamp are parameters of the
embedding. -/
def createPost (db : DB) (actor : Actor) (b : PostBody) (file : Option String)
    (newId newSlug : String) (now : Nat) : CreateResult × DB :=
  if !postValidationOk b then (CreateResult.validationError, db)
  else
    let content := b.content.getD ""
    let post : Post :=
      { id := newId
        title := b.title.getD ""
        slug := newSlug
        content := content
        excerpt := excerptOf b.excerpt content
        author := actor.id
        category := b.category.getD ""
        tags := processTags b.tags
        featuredImage := (file.map (fun f => "/uploads/" ++ f))
        isPublished := b.isPublished == some "true"
        viewCount := 0
        comments := []
        createdAt := now }
    (CreateResult.created post, db ++ [post])

/-- Result of `PUT /posts/:id`. -/
inductive UpdateResult where
  | validationError : UpdateResult
  | notFound : UpdateResult
  | forbidden : UpdateResult
  | ok : Post → UpdateResult
deriving DecidableEq, Repr

/-- The `updateData` document `updatePost` submits, applied to the stored
post: `tags` and `isPublished` are always recomputed from the body;
`title`, `content`, `category` are `undefined` when absent (and an
`undefined` field is stripped from the update, keeping the stored value);
the excerpt is replaced when the body's excerpt is truthy, or derived anew
when content is truthy and different from the stored content; the image
path is replaced when a file was uploaded. -/
def applyUpdate (post : Post) (b : PostBody) (file : Option String) : Post :=
  { post with
    title := b.title.getD post.title
    content := b.content.getD post.content
    category := b.category.getD post.category
    tags := processTags b.tags
    isPublished := b.isPublished == some "true"
    excerpt :=
      if truthy b.excerpt then b.excerpt.getD ""
      else if truthy b.content && !(b.content == some post.content) then
        jsSubstringTo (b.content.getD "") 200 ++ "..."
      else post.excerpt
    featuredImage :=
      match file with
      | some f => some ("/uploads/" ++ f)
      | none => post.featuredImage }

/-- `PUT /posts/:id`: body validation first (400), then lookup (404), then
the owner-or-admin check (403), then the update. -/
def updatePost (db : DB) (actor : Actor) (postId : String) (b : PostBody)
    (file : Option String) : UpdateResult × DB :=
  if !postValidationOk b then (UpdateResult.validationError, db)
  else
    match findById db postId with
    | none => (UpdateResult.notFound, db)
    | some post =>
      if !(post.author == actor.id) && !(actor.role == "admin") then
        (UpdateResult.forbidden, db)
      else
        let post' := applyUpdate post b file
        (UpdateResult.ok post', updateById db postId post')

/-- Result of `DELETE /posts/:id`. -/
inductive DeleteResult where
  | notFound : DeleteResult
  | forbidden : DeleteResult
  | success : DeleteResult
deriving DecidableEq, Repr

/-- `DELETE /posts/:id`: lookup (404), owner-or-admin check (403), then
`findByIdAndDelete`. -/
def deletePost (db : DB) (actor : Actor) (postId : String) : DeleteResult × DB :=
  match findById db postId with
  | none => (DeleteResult.notFound, db)
  | some post =>
    if !(post.author == actor.id) && !(actor.role == "admin") then
      (DeleteResult.forbidden, db)
    else
      (DeleteResult.success, db.filter (fun q => !(q.id == postId)))

/-- Result of `POST /posts/:postId/comments`. -/
inductive AddCommentResult where
  | validationError : AddCommentResult
  | notFound : AddCommentResult
  | created : List Comment → AddCommentResult
deriving DecidableEq, Repr

/-- Modelled from the spec: the Post schema method `addComment` (the model
file `server/models/post.js` is not among the given sources); per §4.4
"content must be non-empty after trimming; otherwise ValidationError" and
the comment is appended to the post's embedded comment list.  `none`
models the schema-level ValidationError. -/
def addCommentMethod (p : Post) (userId : String) (content : String) : Option Post :=
  if (chars (jsTrim content)).isEmpty then none
  else some { p with comments := p.comments ++ [{ user := userId, content := content }] }

/-- `POST /posts/:postId/comments`: falsy content is rejected with 400 by
the controller; then lookup (404); then the schema method appends the
comment (a schema-level validation failure is mapped to 400 by the error
middleware, per the spec's error taxonomy); the updated comment list is
returned. -/
def addComment (db : DB) (postId : String) (actor : Actor) (content : Option String) :
    AddCommentResult × DB :=
  if !truthy content then (AddCommentResult.validationError, db)
  else
    let c := content.getD ""
    match findById db postId with
    | none => (AddCommentResult.notFound, db)
    | some p =>
      match addCommentMethod p actor.id c with
      | none => (AddCommentResult.validationError, db)
      | some p' => (AddCommentResult.created p'.comments, updateById db postId p')

/-- A 24-hex-character id used by concrete instances. -/
def idA : String := "aaaaaaaaaaaaaaaaaaaaaaaa"

/-- A second 24-hex-character id. -/
def idB : String := "bbbbbbbbbbbbbbbbbbbbbbbb"

/-- A 24-hex-character category id. -/
def idC : String := "cccccccccccccccccccccccc"

/-- A sample regular user. -/
def alice : Actor := { id := "a1", role := "user" }

/-- Another sample regular user. -/
def bob : Actor := { id := "b2", role := "user" }

/-- A sample post owned by `alice`. -/
def samplePost : Post :=
  { id := idA, title := "Hello", slug := "hello", content := "hi", excerpt := "e"
    author := "a1", category := idC, tags := ["t1"], featuredImage := none
    isPublished := true, viewCount := 3, comments := [], createdAt := 5 }

/-- A body that passes the route validation. -/
def validBody : PostBody :=
  { title := some "T", content := some "c", category := some idC
    tags := none, excerpt := some "e", isPublished := some "true" }

/-- Membership in a `getPosts` page implies membership in the collection
and satisfaction of the filter. -/
theorem mem_getPosts_data {db : DB} {q : ListQuery} {p : Post}
    (h : p ∈ (getPosts db q).data) : p ∈ db ∧ getPostsFilter q p = true := by
  unfold getPosts at h
  simp only at h
  have h1 := List.mem_of_mem_drop (List.mem_of_mem_take h)
  rw [(List.perm_insertionSort newestFirst _).mem_iff] at h1
  exact (List.mem_filter).mp h1

/-- A successful `searchPosts` response is the 20-capped, sorted filter of
the collection. -/
theorem searchPosts_ok_eq {db : DB} {qq : Option String} {l : List Post}
    (h : searchPosts db qq = SearchResult.ok l) :
    l = ((db.filter (fun p => p.isPublished && postMatchesSearch (qq.getD "") p)).insertionSort
          newestFirst).take 20 := by
  unfold searchPosts at h
  cases ht : truthy qq with
  | false => rw [ht] at h; simp at h
  | true => rw [ht] at h; simp at h; exact h.symm

/-- Claim C6: on `createPost` and `updatePost` the stored tag list comes
from splitting the input on commas and trimming each piece — but, contrary
to the claim, empty pieces are NOT dropped: `"a,,b"` stores
`["a", "", "b"]`, not `["a", "b"]`. -/
theorem C6_counterexample :
    ((createPost [] alice
        { title := some "T", content := some "c", category := some idC
          tags := some "a,,b", excerpt := some "e", isPublished := none }
        none idB "t" 1).snd).map Post.tags = [["a", "", "b"]]
    ∧ specTags (some "a,,b") = ["a", "b"]
    ∧ ¬ (["a", "", "b"] : List String) = ["a", "b"] := by decide

/-- Claim C6 (amended): the stored tag list equals the result of splitting
the tags string on commas and trimming whitespace from each piece,
preserving order, keeping empty pieces and without deduplication; an
absent (or empty) tags input yields the empty list. -/
theorem C6_tags_stored (db : DB) (actor : Actor) (b : PostBody) (file : Option String)
    (i s : String) (now : Nat) (p : Post) :
    (postValidationOk b = true →
      ((createPost db actor b file i s now).snd).map Post.tags
        = db.map Post.tags ++ [processTags b.tags])
    ∧ ((updatePost db actor i b file).fst = UpdateResult.ok p → p.tags = processTags b.tags)
    ∧ (∀ t : String, (chars t).isEmpty = false →
        processTags (some t) = (jsSplitComma t).map jsTrim)
    ∧ processTags none = [] := by
  refine ⟨?_, ?_, ?_, rfl⟩
  · intro hv
    simp [createPost, hv]
  · intro h
    unfold updatePost at h
    split at h
    · simp at h
    · split at h
      · simp at h
      · split at h
        · simp at h
        · simp at h
          subst h
          rfl
  · intro t ht
    simp [processTags, ht]

/-- Application of `C6_tags_stored` at a concrete input: a valid create
with tags `"react, javascript"` stores `["react", "javascript"]`. -/
theorem C6_tags_stored_witness :
    ((createPost [] alice
        { validBody with tags := some "react, javascript" }
        none idB "t" 1).snd).map Post.tags
      = [].map Post.tags ++ [processTags (some "react, javascript")] :=
  (C6_tags_stored [] alice { validBody with tags := some "react, javascript" }
    none idB "t" 1 samplePost).1 (by decide)

/-- Claim C3: with no excerpt supplied and content of length at most 200,
the stored excerpt is NOT the content itself: the controller always
appends the ellipsis marker, so content `"hi"` stores `"hi..."`. -/
theorem C3_counterexample :
    ((createPost [] alice
        { title := some "T", content := some "hi", category := some idC
          tags := none, excerpt := none, isPublished := none }
        none idB "t" 1).snd).map Post.excerpt = ["hi..."]
    ∧ specDerivedExcerpt "hi" = "hi"
    ∧ ¬ ("hi..." : String) = "hi" := by decide

/-- Claim C3 (amended): a non-empty supplied excerpt is stored verbatim;
otherwise the stored excerpt is the first 200 characters of content with
the ellipsis marker appended, regardless of whether content exceeds 200
characters.  On `updatePost` the derivation applies only when no (truthy)
excerpt is supplied and the content differs from the stored content;
otherwise the stored excerpt is kept. -/
theorem C3_excerpt (db : DB) (actor : Actor) (b : PostBody) (file : Option String)
    (i s : String) (now : Nat) (p q : Post) :
    (postValidationOk b = true →
      ((createPost db actor b file i s now).snd).map Post.excerpt
        = db.map Post.excerpt ++ [excerptOf b.excerpt (b.content.getD "")])
    ∧ (truthy b.excerpt = true → excerptOf b.excerpt (b.content.getD "") = b.excerpt.getD "")
    ∧ (truthy b.excerpt = false →
        excerptOf b.excerpt (b.content.getD "")
          = jsSubstringTo (b.content.getD "") 200 ++ "...")
    ∧ (findById db i = some q → (updatePost db actor i b file).fst = UpdateResult.ok p →
        (truthy b.excerpt = true → p.excerpt = b.excerpt.getD "")
        ∧ (truthy b.excerpt = false → b.content = some q.content → p.excerpt = q.excerpt)
        ∧ (truthy b.excerpt = false → ¬ b.content = some q.content → truthy b.content = true →
            p.excerpt = jsSubstringTo (b.content.getD "") 200 ++ "...")) := by
  refine ⟨?_, ?_, ?_, ?_⟩
  · intro hv
    simp [createPost, hv]
  · intro ht
    cases he : b.excerpt with
    | none => rw [he] at ht; simp [truthy] at ht
    | some e =>
      rw [he] at ht
      simp [truthy] at ht
      simp [excerptOf, ht]
  · intro ht
    cases he : b.excerpt with
    | none => simp [excerptOf]
    | some e =>
      rw [he] at ht
      simp [truthy] at ht
      simp [excerptOf, ht]
  · intro hq h
    unfold updatePost at h
    split at h
    · simp at h
    · rw [hq] at h
      simp only at h
      split at h
      · simp at h
      · simp at h
        subst h
        refine ⟨?_, ?_, ?_⟩
        · intro ht; simp [applyUpdate, ht]
        · intro ht hc
          simp [applyUpdate, ht, hc]
        · intro ht hc htc
          simp [applyUpdate, ht, hc, htc]

/-- A valid update body with changed content and no excerpt. -/
def updBody : PostBody :=
  { title := some "T2", content := some "new", category := some idC
    tags := some "x", excerpt := none, isPublished := some "true" }

/-- Application of `C3_excerpt` at a concrete input: updating `samplePost`
(content `"hi"`) with content `"new"` and no excerpt derives the excerpt
anew as `"new..."`. -/
theorem C3_excerpt_witness :
    (applyUpdate samplePost updBody none).excerpt = jsSubstringTo "new" 200 ++ "..." := by
  have h := (C3_excerpt [samplePost] alice updBody none idA "s" 0
    (applyUpdate samplePost updBody none) samplePost).2.2.2
  exact (h (by decide) (by decide)).2.2 (by decide) (by decide) (by decide)

/-- Claim C10: on an authorized update, `tags` and `isPublished` are
recomputed from the request body alone — an omitted tags field resets the
stored list to `[]`, and any `isPublished` other than the exact string
`'true'` (including an absent one) sets the published flag to `false`. -/
theorem C10_update_from_body_only (db : DB) (actor : Actor) (i : String) (b : PostBody)
    (file : Option String) (p : Post) :
    (updatePost db actor i b file).fst = UpdateResult.ok p →
    p.tags = processTags b.tags
    ∧ (b.tags = none → p.tags = [])
    ∧ p.isPublished = (b.isPublished == some "true")
    ∧ (¬ b.isPublished = some "true" → p.isPublished = false) := by
  intro h
  unfold updatePost at h
  split at h
  · simp at h
  · split at h
    · simp at h
    · split at h
      · simp at h
      · simp at h
        subst h
        refine ⟨rfl, ?_, rfl, ?_⟩
        · intro ht
          simp [applyUpdate, processTags, ht]
        · intro hip
          simp [applyUpdate, hip]

/-- Application of `C10_update_from_body_only` at a concrete input: an
owner update of `samplePost` (tags `["t1"]`, published) whose body omits
both fields erases the tags and unpublishes the post. -/
theorem C10_update_from_body_only_witness :
    (applyUpdate samplePost
      { title := some "Hello", content := some "hi", category := some idC
        tags := none, excerpt := none, isPublished := none } none).tags = []
    ∧ (applyUpdate samplePost
      { title := some "Hello", content := some "hi", category := some idC
        tags := none, excerpt := none, isPublished := none } none).isPublished = false := by
  have h := C10_update_from_body_only [samplePost] alice idA
    { title := some "Hello", content := some "hi", category := some idC
      tags := none, excerpt := none, isPublished := none } none
    (applyUpdate samplePost
      { title := some "Hello", content := some "hi", category := some idC
        tags := none, excerpt := none, isPublished := none } none)
    (by decide)
  exact ⟨h.2.1 rfl, h.2.2.2 (by decide)⟩

/-- The ownership gate of `updatePost`/`deletePost` is open (condition
false) exactly for the owner or an admin. -/
theorem authCond_false_iff (post : Post) (actor : Actor) :
    ((!(post.author == actor.id) && !(actor.role == "admin")) = false)
      ↔ (post.author = actor.id ∨ actor.role = "admin") := by
  cases h1 : post.author == actor.id <;> cases h2 : actor.role == "admin" <;>
    simp_all

/-- Claim C1: a non-owner, non-admin `updatePost` request on an existing
post does NOT always yield Forbidden — when the body fails validation the
request is rejected with a ValidationError before the ownership check. -/
theorem C1_counterexample :
    (updatePost [samplePost] bob idA
        { title := none, content := some "c", category := some idC
          tags := none, excerpt := none, isPublished := none } none).fst
      = UpdateResult.validationError
    ∧ ¬ samplePost.author = bob.id
    ∧ ¬ bob.role = "admin"
    ∧ ¬ (updatePost [samplePost] bob idA
        { title := none, content := some "c", category := some idC
          tags := none, excerpt := none, isPublished := none } none).fst
      = UpdateResult.forbidden := by decide

/-- Unfolding of `deletePost` when the post is found. -/
theorem deletePost_eq_found (db : DB) (actor : Actor) (i : String) (post : Post)
    (hq : findById db i = some post) :
    deletePost db actor i =
      if !(post.author == actor.id) && !(actor.role == "admin")
      then (DeleteResult.forbidden, db)
      else (DeleteResult.success, db.filter (fun q => !(q.id == i))) := by
  unfold deletePost
  rw [hq]

/-- Unfolding of `updatePost` when the body fails validation. -/
theorem updatePost_eq_invalid (db : DB) (actor : Actor) (i : String) (b : PostBody)
    (file : Option String) (hv : postValidationOk b = false) :
    updatePost db actor i b file = (UpdateResult.validationError, db) := by
  unfold updatePost
  rw [hv]
  rfl

/-- Unfolding of `updatePost` when the body passes validation and the post
is found. -/
theorem updatePost_eq_found (db : DB) (actor : Actor) (i : String) (b : PostBody)
    (file : Option String) (post : Post)
    (hv : postValidationOk b = true) (hq : findById db i = some post) :
    updatePost db actor i b file =
      if !(post.author == actor.id) && !(actor.role == "admin")
      then (UpdateResult.forbidden, db)
      else (UpdateResult.ok (applyUpdate post b file), updateById db i (applyUpdate post b file)) := by
  unfold updatePost
  rw [hv, hq]
  rfl

/-- Claim C1 (amended): `deletePost` on an existing post succeeds iff the
actor is the owner or an admin, and otherwise yields Forbidden with the
collection unchanged; `updatePost` obeys the same rule for every request
whose body passes validation, while a request failing body validation is
rejected with a ValidationError (before the ownership check) and the
collection is likewise unchanged. -/
theorem C1_owner_or_admin (db : DB) (actor : Actor) (i : String) (b : PostBody)
    (file : Option String) (post : Post) :
    (findById db i = some post →
      ((deletePost db actor i).fst = DeleteResult.success
          ↔ (post.author = actor.id ∨ actor.role = "admin"))
      ∧ (¬ (post.author = actor.id ∨ actor.role = "admin") →
          (deletePost db actor i).fst = DeleteResult.forbidden
          ∧ (deletePost db actor i).snd = db))
    ∧ (findById db i = some post → postValidationOk b = true →
      ((∃ p, (updatePost db actor i b file).fst = UpdateResult.ok p)
          ↔ (post.author = actor.id ∨ actor.role = "admin"))
      ∧ (¬ (post.author = actor.id ∨ actor.role = "admin") →
          (updatePost db actor i b file).fst = UpdateResult.forbidden
          ∧ (updatePost db actor i b file).snd = db))
    ∧ (postValidationOk b = false →
        (updatePost db actor i b file).fst = UpdateResult.validationError
        ∧ (updatePost db actor i b file).snd = db) := by
  refine ⟨?_, ?_, ?_⟩
  · intro hq
    have he := deletePost_eq_found db actor i post hq
    by_cases hA : post.author = actor.id ∨ actor.role = "admin"
    · have hc := (authCond_false_iff post actor).mpr hA
      rw [he, hc]
      simp [hA]
    · have hc : (!(post.author == actor.id) && !(actor.role == "admin")) = true := by
        cases hcc : (!(post.author == actor.id) && !(actor.role == "admin")) with
        | false => exact absurd ((authCond_false_iff post actor).mp hcc) hA
        | true => rfl
      rw [he, hc]
      simp [hA]
  · intro hq hv
    have he := updatePost_eq_found db actor i b file post hv hq
    by_cases hA : post.author = actor.id ∨ actor.role = "admin"
    · have hc := (authCond_false_iff post actor).mpr hA
      rw [he, hc]
      simp [hA]
    · have hc : (!(post.author == actor.id) && !(actor.role == "admin")) = true := by
        cases hcc : (!(post.author == actor.id) && !(actor.role == "admin")) with
        | false => exact absurd ((authCond_false_iff post actor).mp hcc) hA
        | true => rfl
      rw [he, hc]
      simp [hA]
  · intro hv
    rw [updatePost_eq_invalid db actor i b file hv]
    exact ⟨rfl, rfl⟩

/-- Application of `C1_owner_or_admin` at a concrete input: `bob` (neither
owner nor admin) gets Forbidden from both mutations on `samplePost`, with
the collection unchanged. -/
theorem C1_owner_or_admin_witness :
    (updatePost [samplePost] bob idA validBody none).fst = UpdateResult.forbidden
    ∧ (updatePost [samplePost] bob idA validBody none).snd = [samplePost]
    ∧ (deletePost [samplePost] bob idA).fst = DeleteResult.forbidden := by
  have h := C1_owner_or_admin [samplePost] bob idA validBody none samplePost
  have hu := (h.2.1 (by decide) (by decide)).2 (by decide)
  have hd := (h.1 (by decide)).2 (by decide)
  exact ⟨hu.1, hu.2, hd.1⟩

/-- Claim C2: every post in a `getPosts` page and in a `searchPosts`
result is published; a `searchPosts` result has at most 20 posts and is
ordered newest-first by creation time. -/
theorem C2_published_only (db : DB) (q : ListQuery) (qs : Option String)
    (p : Post) (l : List Post) :
    (p ∈ (getPosts db q).data → p.isPublished = true)
    ∧ (searchPosts db qs = SearchResult.ok l →
        (∀ r ∈ l, r.isPublished = true)
        ∧ l.length ≤ 20
        ∧ l.Pairwise (fun a b => b.createdAt ≤ a.createdAt)) := by
  constructor
  · intro h
    have hf := (mem_getPosts_data h).2
    unfold getPostsFilter at hf
    simp only [Bool.and_eq_true] at hf
    exact hf.1.1
  · intro h
    have hl := searchPosts_ok_eq h
    subst hl
    refine ⟨?_, List.length_take_le 20 _, ?_⟩
    · intro r hr
      have h1 := List.mem_of_mem_take hr
      rw [(List.perm_insertionSort newestFirst _).mem_iff] at h1
      have h2 := (List.mem_filter.mp h1).2
      simp only [Bool.and_eq_true] at h2
      exact h2.1
    · have hs := List.sorted_insertionSort newestFirst
        (db.filter (fun r => r.isPublished && postMatchesSearch (qs.getD "") r))
      have ht := List.Pairwise.sublist (List.take_sublist 20 _) hs
      exact ht.imp (fun hab => hab)

/-- Application of `C2_published_only` at a concrete input: `samplePost`
appears on the public page of `[samplePost]` and is published, and the
`searchPosts` result `[samplePost]` is all-published. -/
theorem C2_published_only_witness :
    samplePost.isPublished = true
    ∧ (∀ r ∈ [samplePost], r.isPublished = true) := by
  have h := C2_published_only [samplePost]
    { page := none, limit := none, category := none, search := none }
    (some "h") samplePost [samplePost]
  exact ⟨h.1 (by decide), (h.2 (by decide)).1⟩

/-- Claim C4: a successful `getPost` increments the found post's view
counter by exactly one — in the response and in the stored collection —
and leaves every other post untouched; a NotFound `getPost` leaves the
collection unchanged. -/
theorem C4_view_count (db : DB) (param : String) (p : Post) :
    ((getPost db param).fst = GetPostResult.notFound → (getPost db param).snd = db)
    ∧ ((getPost db param).fst = GetPostResult.ok p →
        ∃ p0, getPostLookup db param = some p0
          ∧ p.viewCount = p0.viewCount + 1
          ∧ (getPost db param).snd = updateById db p0.id (incrementViewCount p0)
          ∧ ∀ q ∈ db, ¬ q.id = p0.id → q ∈ (getPost db param).snd) := by
  constructor
  · intro h
    unfold getPost at h ⊢
    cases hl : getPostLookup db param with
    | none => rfl
    | some p0 => rw [hl] at h; simp at h
  · intro h
    unfold getPost at h ⊢
    cases hl : getPostLookup db param with
    | none => rw [hl] at h; simp at h
    | some p0 =>
      rw [hl] at h
      have hp : incrementViewCount p0 = p := by
        simpa using h
      refine ⟨p0, rfl, ?_, rfl, ?_⟩
      · rw [← hp]; rfl
      · intro q hq hne
        show q ∈ db.map (fun r => if r.id == p0.id then incrementViewCount p0 else r)
        have hfq : (if q.id == p0.id then incrementViewCount p0 else q) = q := by
          have hb : (q.id == p0.id) = false := by
            simpa using hne
          rw [hb]
          simp
        exact List.mem_map.mpr ⟨q, hq, hfq⟩

/-- Application of `C4_view_count` at concrete inputs: looking up a
missing post leaves the collection unchanged, and a successful lookup of
`samplePost` yields exactly one more view. -/
theorem C4_view_count_witness :
    (getPost [samplePost] "zz").snd = [samplePost]
    ∧ (incrementViewCount samplePost).viewCount = samplePost.viewCount + 1 := by
  constructor
  · exact (C4_view_count [samplePost] "zz" samplePost).1 (by decide)
  · obtain ⟨p0, hl, hv, _, _⟩ :=
      (C4_view_count [samplePost] idA (incrementViewCount samplePost)).2 (by decide)
    have h0 : getPostLookup [samplePost] idA = some samplePost := by decide
    rw [h0] at hl
    cases hl
    exact hv

/-- `find?` by key on a collection whose keys are distinct returns the
member itself. -/
theorem find?_key_of_nodup (key : Post → String) (db : DB) (p : Post)
    (hmem : p ∈ db) (hnd : (db.map key).Nodup) :
    db.find? (fun q => key q == key p) = some p := by
  induction db with
  | nil => cases hmem
  | cons a l ih =>
    rw [List.map_cons, List.nodup_cons] at hnd
    rcases List.mem_cons.mp hmem with h | h
    · subst h
      simp [List.find?_cons]
    · have hne : (key a == key p) = false := by
        have hin : key p ∈ l.map key := List.mem_map_of_mem key h
        have hk : ¬ key a = key p := fun he => hnd.1 (he ▸ hin)
        simpa using hk
      rw [List.find?_cons, hne]
      exact ih h hnd.2

/-- The invariants the spec states for the collection: post ids are
distinct ObjectIds, slugs are distinct and do not collide with the
ObjectId space ("the two identifier spaces must not collide"). -/
def WellFormedDB (db : DB) : Prop :=
  (db.map Post.id).Nodup ∧ (db.map Post.slug).Nodup
  ∧ (∀ p ∈ db, isValidObjectId p.id = true)
  ∧ (∀ p ∈ db, isValidObjectId p.slug = false)

/-- `getPost` dispatches to the id lookup on an ObjectId-shaped route
parameter. -/
theorem getPostLookup_valid (db : DB) (param : String)
    (h : isValidObjectId param = true) :
    getPostLookup db param = findById db param := by
  unfold getPostLookup
  rw [h]
  rfl

/-- `getPost` dispatches to the slug lookup otherwise. -/
theorem getPostLookup_invalid (db : DB) (param : String)
    (h : isValidObjectId param = false) :
    getPostLookup db param = findBySlug db param := by
  unfold getPostLookup
  rw [h]
  rfl

/-- `getPost` returns the incremented post when the lookup succeeds. -/
theorem getPost_fst_of_lookup_some (db : DB) (param : String) (p0 : Post)
    (h : getPostLookup db param = some p0) :
    (getPost db param).fst = GetPostResult.ok (incrementViewCount p0) := by
  unfold getPost
  rw [h]

/-- `getPost` returns NotFound when the lookup fails. -/
theorem getPost_fst_of_lookup_none (db : DB) (param : String)
    (h : getPostLookup db param = none) :
    (getPost db param).fst = GetPostResult.notFound := by
  unfold getPost
  rw [h]

/-- A successful slug lookup returns a member whose slug is the key. -/
theorem findBySlug_some {db : DB} {param : String} {q : Post}
    (h : findBySlug db param = some q) : q ∈ db ∧ q.slug = param := by
  refine ⟨List.mem_of_find?_eq_some h, ?_⟩
  have := List.find?_some h
  simpa using this

/-- A successful id lookup returns a member whose id is the key. -/
theorem findById_some {db : DB} {param : String} {q : Post}
    (h : findById db param = some q) : q ∈ db ∧ q.id = param := by
  refine ⟨List.mem_of_find?_eq_some h, ?_⟩
  have := List.find?_some h
  simpa using this

/-- Claim C5: on a collection satisfying the spec's identifier invariants,
`getPost` addressed by a post's id and addressed by its slug returns the
identical record (the post with its view counter incremented), and it
returns NotFound exactly when neither the id lookup nor the slug lookup
resolves the route parameter. -/
theorem C5_id_or_slug (db : DB) (p : Post) (param : String) :
    WellFormedDB db →
    (p ∈ db →
      (getPost db p.id).fst = GetPostResult.ok (incrementViewCount p)
      ∧ (getPost db p.slug).fst = GetPostResult.ok (incrementViewCount p))
    ∧ ((getPost db param).fst = GetPostResult.notFound
        ↔ (findById db param = none ∧ findBySlug db param = none)) := by
  intro hwf
  obtain ⟨hndid, hndslug, hvid, hvslug⟩ := hwf
  constructor
  · intro hmem
    constructor
    · have hfind : findById db p.id = some p :=
        find?_key_of_nodup Post.id db p hmem hndid
      have hlook := getPostLookup_valid db p.id (hvid p hmem)
      exact getPost_fst_of_lookup_some db p.id p (hlook.trans hfind)
    · have hfind : findBySlug db p.slug = some p :=
        find?_key_of_nodup Post.slug db p hmem hndslug
      have hlook := getPostLookup_invalid db p.slug (hvslug p hmem)
      exact getPost_fst_of_lookup_some db p.slug p (hlook.trans hfind)
  · constructor
    · intro hn
      cases hv : isValidObjectId param with
      | true =>
        have hlook := getPostLookup_valid db param hv
        have hida : findById db param = none := by
          cases hfi : findById db param with
          | none => rfl
          | some q =>
            have := getPost_fst_of_lookup_some db param q (hlook.trans hfi)
            rw [hn] at this
            simp at this
        refine ⟨hida, ?_⟩
        cases hfs : findBySlug db param with
        | none => rfl
        | some q =>
          obtain ⟨hqmem, hqslug⟩ := findBySlug_some hfs
          have := hvslug q hqmem
          rw [hqslug, hv] at this
          simp at this
      | false =>
        have hlook := getPostLookup_invalid db param hv
        have hslg : findBySlug db param = none := by
          cases hfs : findBySlug db param with
          | none => rfl
          | some q =>
            have := getPost_fst_of_lookup_some db param q (hlook.trans hfs)
            rw [hn] at this
            simp at this
        refine ⟨?_, hslg⟩
        cases hfi : findById db param with
        | none => rfl
        | some q =>
          obtain ⟨hqmem, hqid⟩ := findById_some hfi
          have := hvid q hqmem
          rw [hqid, hv] at this
          simp at this
    · intro hnone
      cases hv : isValidObjectId param with
      | true =>
        exact getPost_fst_of_lookup_none db param
          ((getPostLookup_valid db param hv).trans hnone.1)
      | false =>
        exact getPost_fst_of_lookup_none db param
          ((getPostLookup_invalid db param hv).trans hnone.2)

instance (db : DB) : Decidable (WellFormedDB db) := by
  unfold WellFormedDB
  infer_instance

/-- A second post, owned by `bob`, with distinct id and slug. -/
def post2 : Post :=
  { id := idB, title := "World", slug := "world", content := "w", excerpt := "x"
    author := "b2", category := idC, tags := [], featuredImage := none
    isPublished := false, viewCount := 0, comments := [], createdAt := 9 }

/-- Application of `C5_id_or_slug` at a concrete input: on the two-post
collection, fetching `samplePost` by id and by slug yields the identical
record, and an unresolvable parameter yields NotFound. -/
theorem C5_id_or_slug_witness :
    (getPost [samplePost, post2] samplePost.id).fst
        = GetPostResult.ok (incrementViewCount samplePost)
    ∧ (getPost [samplePost, post2] samplePost.slug).fst
        = GetPostResult.ok (incrementViewCount samplePost)
    ∧ (getPost [samplePost, post2] "nope").fst = GetPostResult.notFound := by
  have h := C5_id_or_slug [samplePost, post2] samplePost "nope" (by decide)
  exact ⟨(h.1 (by decide)).1, (h.1 (by decide)).2, h.2.mpr ⟨by decide, by decide⟩⟩

/-- Unfolding of `addComment` past the controller's truthiness gate. -/
theorem addComment_eq_truthy (db : DB) (postId : String) (actor : Actor) (c : String)
    (hce : (chars c).isEmpty = false) :
    addComment db postId actor (some c) =
      match findById db postId with
      | none => (AddCommentResult.notFound, db)
      | some p =>
        match addCommentMethod p actor.id c with
        | none => (AddCommentResult.validationError, db)
        | some p' => (AddCommentResult.created p'.comments, updateById db postId p') := by
  unfold addComment
  have ht : truthy (some c) = true := by simpa [truthy] using hce
  rw [ht]
  rfl

/-- The modelled schema method rejects whitespace-only content. -/
theorem addCommentMethod_eq_empty (p : Post) (u c : String)
    (h : (chars (jsTrim c)).isEmpty = true) : addCommentMethod p u c = none := by
  unfold addCommentMethod
  rw [h]
  rfl

/-- The modelled schema method appends non-blank content. -/
theorem addCommentMethod_eq_append (p : Post) (u c : String)
    (h : (chars (jsTrim c)).isEmpty = false) :
    addCommentMethod p u c
      = some { p with comments := p.comments ++ [{ user := u, content := c }] } := by
  unfold addCommentMethod
  rw [h]
  rfl

/-- Claim C7: a whitespace-only comment on a NONEXISTENT post does not
fail with a ValidationError — the controller's falsiness gate lets the
blank-but-truthy content through and the post lookup fails first, so the
request fails NotFound. -/
theorem C7_counterexample :
    (addComment [] idA bob (some " ")).fst = AddCommentResult.notFound
    ∧ (chars (jsTrim " ")).isEmpty = true
    ∧ ¬ (addComment [] idA bob (some " ")).fst = AddCommentResult.validationError := by
  decide

/-- Claim C7 (amended): `addComment` fails with a ValidationError and adds
no comment whenever the content is absent or empty, and — when the target
post exists — whenever the content is whitespace-only; a whitespace-only
comment on a nonexistent post instead fails NotFound (also adding
nothing); content that is non-empty after trimming is appended to the
existing post's embedded comment list. -/
theorem C7_comment_validation (db : DB) (postId : String) (actor : Actor)
    (content : Option String) (c : String) (p : Post) :
    (truthy content = false →
        addComment db postId actor content = (AddCommentResult.validationError, db))
    ∧ (content = some c → (chars (jsTrim c)).isEmpty = true → findById db postId = some p →
        addComment db postId actor content = (AddCommentResult.validationError, db))
    ∧ (content = some c → (chars c).isEmpty = false → (chars (jsTrim c)).isEmpty = true →
        findById db postId = none →
        addComment db postId actor content = (AddCommentResult.notFound, db))
    ∧ (content = some c → (chars (jsTrim c)).isEmpty = false → findById db postId = some p →
        addComment db postId actor content
          = (AddCommentResult.created (p.comments ++ [{ user := actor.id, content := c }]),
             updateById db postId
               { p with comments := p.comments ++ [{ user := actor.id, content := c }] })) := by
  refine ⟨?_, ?_, ?_, ?_⟩
  · intro ht
    unfold addComment
    rw [ht]
    rfl
  · intro hc hts hf
    subst hc
    cases hce : (chars c).isEmpty with
    | true =>
      have ht : truthy (some c) = false := by simpa [truthy] using hce
      unfold addComment
      rw [ht]
      rfl
    | false =>
      have hstep : addComment db postId actor (some c)
          = match addCommentMethod p actor.id c with
            | none => (AddCommentResult.validationError, db)
            | some p' => (AddCommentResult.created p'.comments, updateById db postId p') := by
        rw [addComment_eq_truthy db postId actor c hce, hf]
      rw [hstep, addCommentMethod_eq_empty p actor.id c hts]
  · intro hc hce hts hf
    subst hc
    rw [addComment_eq_truthy db postId actor c hce, hf]
  · intro hc hts hf
    subst hc
    have hce : (chars c).isEmpty = false := by
      cases hcc : chars c with
      | nil =>
        have : chars (jsTrim c) = [] := by
          show trimChars (chars c) = []
          rw [hcc]
          rfl
        rw [this] at hts
        simp at hts
      | cons a l => rfl
    have hstep : addComment db postId actor (some c)
        = match addCommentMethod p actor.id c with
          | none => (AddCommentResult.validationError, db)
          | some p' => (AddCommentResult.created p'.comments, updateById db postId p') := by
      rw [addComment_eq_truthy db postId actor c hce, hf]
    rw [hstep, addCommentMethod_eq_append p actor.id c hts]

/-- Application of `C7_comment_validation` at concrete inputs: a real
comment is appended to `samplePost`, and an absent content is rejected
with the collection unchanged. -/
theorem C7_comment_validation_witness :
    addComment [samplePost] idA bob (some "nice")
      = (AddCommentResult.created
            (samplePost.comments ++ [{ user := bob.id, content := "nice" }]),
         updateById [samplePost] idA
            { samplePost with
              comments := samplePost.comments ++ [{ user := bob.id, content := "nice" }] })
    ∧ addComment [samplePost] idA bob none
        = (AddCommentResult.validationError, [samplePost]) := by
  have h := C7_comment_validation [samplePost] idA bob (some "nice") "nice" samplePost
  have h2 := C7_comment_validation [samplePost] idA bob none "x" samplePost
  exact ⟨h.2.2.2 rfl (by decide) (by decide), h2.1 (by decide)⟩

/-- `jsCeilDiv` is the exact ceiling of `total / limit` for a positive
limit: it is the least integer number of pages covering `total` records. -/
theorem jsCeilDiv_bounds (t : Nat) (l : Int) (hl : 0 < l) :
    (t : Int) ≤ jsCeilDiv t l * l ∧ (jsCeilDiv t l - 1) * l < (t : Int) := by
  unfold jsCeilDiv
  rw [Int.fdiv_eq_ediv _ (le_of_lt hl)]
  set q := (-(t : Int)) / l with hq
  constructor
  · have h1 : ((-(t : Int)) / l) * l ≤ -(t : Int) := Int.ediv_mul_le _ (ne_of_gt hl)
    rw [← hq] at h1
    have hr : -q * l = -(q * l) := by ring
    linarith
  · have hlt : (-(t : Int)) / l < q + 1 := by
      rw [← hq]
      omega
    have h2 : -(t : Int) < (q + 1) * l := (Int.ediv_lt_iff_lt_mul hl).mp hlt
    have hr : (-q - 1) * l = -((q + 1) * l) := by ring
    linarith

/-- The query `page=-5`. -/
def negPageQuery : ListQuery :=
  { page := some "-5", limit := none, category := none, search := none }

/-- Claim C8: the reported page is NOT always at least 1 — a negative
numeric `page` parameter is used as-is rather than falling back to the
default. -/
theorem C8_counterexample :
    (getPosts [] negPageQuery).pagination.page = -5
    ∧ ¬ (1 : Int) ≤ (getPosts [] negPageQuery).pagination.page := by
  decide

/-- Claim C8 (amended): `page` falls back to 1 and `limit` to 10 exactly
when the parameter is absent, unparsable, or parses to 0; any other parsed
value — including a negative one, so `page ≥ 1` does not always hold — is
used as-is; the page of records is obtained by skipping `(page−1)×limit`
records, and for a positive limit the reported `pages` is the exact
ceiling of `total/limit`. -/
theorem C8_pagination (db : DB) (q : ListQuery) :
    ((parseIntJS q.page = none ∨ parseIntJS q.page = some 0) →
        (getPosts db q).pagination.page = 1)
    ∧ (∀ v : Int, parseIntJS q.page = some v → ¬ v = 0 →
        (getPosts db q).pagination.page = v)
    ∧ ((parseIntJS q.limit = none ∨ parseIntJS q.limit = some 0) →
        (getPosts db q).pagination.limit = 10)
    ∧ (∀ v : Int, parseIntJS q.limit = some v → ¬ v = 0 →
        (getPosts db q).pagination.limit = v)
    ∧ (getPosts db q).data
        = (((db.filter (getPostsFilter q)).insertionSort newestFirst).drop
            (((getPosts db q).pagination.page - 1) * (getPosts db q).pagination.limit).toNat).take
            (getPosts db q).pagination.limit.toNat
    ∧ (getPosts db q).pagination.total = (db.filter (getPostsFilter q)).length
    ∧ (0 < (getPosts db q).pagination.limit →
        ((getPosts db q).pagination.total : Int)
            ≤ (getPosts db q).pagination.pages * (getPosts db q).pagination.limit
        ∧ ((getPosts db q).pagination.pages - 1) * (getPosts db q).pagination.limit
            < ((getPosts db q).pagination.total : Int)) := by
  refine ⟨?_, ?_, ?_, ?_, rfl, rfl, ?_⟩
  · intro h
    show pageOf q.page = 1
    unfold pageOf
    rcases h with h | h <;> simp [h]
  · intro v h hv
    show pageOf q.page = v
    unfold pageOf
    rw [h]
    have hb : (v == 0) = false := by simpa using hv
    show (if (v == 0) = true then 1 else v) = v
    rw [hb]
    rfl
  · intro h
    show limitOf q.limit = 10
    unfold limitOf
    rcases h with h | h <;> simp [h]
  · intro v h hv
    show limitOf q.limit = v
    unfold limitOf
    rw [h]
    have hb : (v == 0) = false := by simpa using hv
    show (if (v == 0) = true then 10 else v) = v
    rw [hb]
    rfl
  · intro hl
    exact jsCeilDiv_bounds (db.filter (getPostsFilter q)).length (limitOf q.limit) hl

/-- A concrete paging query. -/
def pageTwoQuery : ListQuery :=
  { page := some "2", limit := none, category := none, search := none }

/-- Application of `C8_pagination` at a concrete input: `page=2` is used
as parsed, the absent limit falls back to 10, and the reported pages
bound the total. -/
theorem C8_pagination_witness :
    (getPosts [samplePost] pageTwoQuery).pagination.page = 2
    ∧ (getPosts [samplePost] pageTwoQuery).pagination.limit = 10
    ∧ ((getPosts [samplePost] pageTwoQuery).pagination.total : Int)
        ≤ (getPosts [samplePost] pageTwoQuery).pagination.pages
            * (getPosts [samplePost] pageTwoQuery).pagination.limit := by
  have h := C8_pagination [samplePost] pageTwoQuery
  exact ⟨h.2.1 2 (by decide) (by decide), h.2.2.1 (Or.inl (by decide)),
    (h.2.2.2.2.2.2 (by decide)).1⟩

/-- A published post whose title regex-matches `a.c` without containing it
literally. -/
def postC9 : Post :=
  { id := idB, title := "abc", slug := "abc-post", content := "x", excerpt := "e"
    author := "a1", category := idC, tags := [], featuredImage := none
    isPublished := true, viewCount := 0, comments := [], createdAt := 1 }

/-- Claim C9: the search term is NOT matched as literal text — the term
`a.c` (with the regex wildcard `.`) selects the post titled `abc`, though
`a.c` does not occur as a literal substring of the post's title, content
or tags. -/
theorem C9_counterexample :
    searchPosts [postC9] (some "a.c") = SearchResult.ok [postC9]
    ∧ postMatchesLiteral "a.c" postC9 = false := by
  decide

/-- Claim C9 (amended): a search term of `getPosts` or `searchPosts` is
interpreted as a case-insensitive regular expression — metacharacters are
active rather than literal — and a post matches iff the pattern matches
its title, its content, or one of its tags; on a collection with at most
20 published matches, `searchPosts` returns exactly the published posts
the pattern matches. -/
theorem C9_regex_matching (db : DB) (q : ListQuery) (s : String) (qq : Option String)
    (l : List Post) (p : Post) :
    (q.search = some s → (chars s).isEmpty = false → p ∈ (getPosts db q).data →
        postMatchesSearch s p = true)
    ∧ (searchPosts db qq = SearchResult.ok l → p ∈ l →
        p.isPublished = true ∧ postMatchesSearch (qq.getD "") p = true)
    ∧ ((db.filter (fun r => r.isPublished && postMatchesSearch (qq.getD "") r)).length ≤ 20 →
        searchPosts db qq = SearchResult.ok l →
        (p ∈ l ↔ (p ∈ db ∧ p.isPublished = true ∧ postMatchesSearch (qq.getD "") p = true))) := by
  refine ⟨?_, ?_, ?_⟩
  · intro hs hse hmem
    have hf := (mem_getPosts_data hmem).2
    unfold getPostsFilter at hf
    rw [hs] at hf
    simp only [Bool.and_eq_true] at hf
    have h3 := hf.2
    simp [hse] at h3
    exact h3
  · intro hok hmem
    have hl := searchPosts_ok_eq hok
    subst hl
    have h1 := List.mem_of_mem_take hmem
    rw [(List.perm_insertionSort newestFirst _).mem_iff] at h1
    have h2 := (List.mem_filter.mp h1).2
    simpa [Bool.and_eq_true] using h2
  · intro hlen hok
    have hl := searchPosts_ok_eq hok
    subst hl
    have hperm := List.perm_insertionSort newestFirst
      (db.filter (fun r => r.isPublished && postMatchesSearch (qq.getD "") r))
    have hlen2 : ((db.filter
        (fun r => r.isPublished && postMatchesSearch (qq.getD "") r)).insertionSort
          newestFirst).length ≤ 20 := by
      rw [hperm.length_eq]
      exact hlen
    rw [List.take_of_length_le hlen2, hperm.mem_iff, List.mem_filter]
    simp [Bool.and_eq_true, and_assoc]

/-- The query searching for `b`. -/
def searchBQuery : ListQuery :=
  { page := none, limit := none, category := none, search := some "b" }

/-- Application of `C9_regex_matching` at concrete inputs: the post listed
for the search `b` regex-matches `b`, and the post returned by
`searchPosts` for `abc` is published and regex-matches `abc`. -/
theorem C9_regex_matching_witness :
    postMatchesSearch "b" postC9 = true
    ∧ (postC9.isPublished = true ∧ postMatchesSearch ((some "abc").getD "") postC9 = true) := by
  have h := C9_regex_matching [postC9] searchBQuery "b" (some "abc") [postC9] postC9
  exact ⟨h.1 (by decide) (by decide) (by decide), h.2.1 (by decide) (by decide)⟩
